import Mathlib

/-
Verification of the core of the python-xmpp-server repository.

The development shallowly embeds the parts of the source that the
properties below are about:

  * xmpp/state.py   -- State.trigger / State.run / State.flush, Once,
                       Resources (bind / bound / unbind, weak references)
  * xmpp/core.py    -- Core.info_query, Core.iq_bind, Core.iq_ident,
                       ServerCore.handle_stanza
  * xmpp/xml.py     -- the jid class (regex parser, field overrides,
                       canonical unicode form)
  * xmpp/plugin.py  -- CompiledPlugins activation of default plugins
  * hashlib.md5     -- the resource strings produced by Resources.bind
                       are md5 hexdigests, so md5 is embedded as well

Python strings are modelled as List Char (the sources are ASCII), dicts
as association lists in insertion order (assignment replaces the value
in place, a fresh key is appended), and Python sets as duplicate-free
lists.  Machine words in md5 are Nat reduced modulo 2 ^ 32.
-/

set_option maxRecDepth 8192

/-! ## Association lists (Python dict, insertion ordered) -/

/-- Lookup in an insertion-ordered dict. -/
def lookupA {κ ν : Type} [DecidableEq κ] : List (κ × ν) → κ → Option ν
  | [], _ => none
  | (k, v) :: rest, key => if k = key then some v else lookupA rest key

/-- Assignment `d[key] = val`: replaces the value at an existing key in
place, otherwise appends the new binding (Python dict insertion order). -/
def setA {κ ν : Type} [DecidableEq κ] : List (κ × ν) → κ → ν → List (κ × ν)
  | [], key, val => [(key, val)]
  | (k, v) :: rest, key, val =>
      if k = key then (k, val) :: rest else (k, v) :: setA rest key val

/-- Deletion `del d[key]` of a present key (callers check presence first,
matching the KeyError behaviour of the source). -/
def eraseA {κ ν : Type} [DecidableEq κ] : List (κ × ν) → κ → List (κ × ν)
  | [], _ => []
  | (k, v) :: rest, key => if k = key then rest else (k, v) :: eraseA rest key

/-! ## State.trigger (xmpp/state.py lines 81-88)

```
def trigger(self, event, *args, **kwargs):
    handlers = self.events.get(event)
    if handlers:
        for (index, handler) in enumerate(handlers):
            if isinstance(handler, Once):
                del handlers[index]
            self.run(handler, *args, **kwargs)
    return self
```

A listener is either a plain callback or a `Once` wrapper; callbacks are
identified by numbers.  The CPython `for (index, handler) in
enumerate(handlers)` loop fetches `handlers[index]` from the *live* list
and stops as soon as `index` reaches the current length; `del
handlers[index]` shifts the tail down, so the embedded loop below keeps
the pair (list, index) as its state.  The `fuel` argument only bounds the
recursion: every iteration decreases `handlers.length - index` by at
least one while consuming one unit of fuel, and the loop exits on its own
once `index` reaches the length, so starting with `fuel =
handlers.length` never cuts the loop short. -/

structure Listener where
  once : Bool
  cb : Nat
deriving DecidableEq, Repr

def trigger_loop (fuel : Nat) (handlers : List Listener) (index : Nat)
    (ran : List Nat) : List Listener × List Nat :=
  match fuel with
  | 0 => (handlers, ran)
  | fuel + 1 =>
      match handlers.get? index with
      | none => (handlers, ran)
      | some handler =>
          if handler.once then
            trigger_loop fuel (handlers.eraseIdx index) (index + 1)
              (ran ++ [handler.cb])
          else
            trigger_loop fuel handlers (index + 1) (ran ++ [handler.cb])

/-- State.trigger on the event map: returns the updated event map and the
list of callbacks that were handed to `State.run`, in order.  The
`if handlers:` truthiness test skips absent and empty listener lists. -/
def State.trigger (events : List (Nat × List Listener)) (event : Nat) :
    List (Nat × List Listener) × List Nat :=
  match lookupA events event with
  | none => (events, [])
  | some handlers =>
      if handlers = [] then (events, [])
      else
        let r := trigger_loop handlers.length handlers 0 []
        (setA events event r.1, r.2)

/-! ## State.run / State.lock / State.flush (xmpp/state.py lines 128-167)

```
def run(self, method, *args, **kwargs):
    if self.locked:
        self.schedule.append(partial(method, *args, **kwargs))
        return self
    with self.lock():
        method(*args, **kwargs)
    return self
```

`lock()` sets `locked = True` around the body and on release (back to
unlocked) calls `flush()`, whose loop `while self.schedule:
self.schedule.popleft()()` runs queued jobs with `locked = True` until
the queue is empty.

A job body is a small program: an observable primitive action, a call to
`state.run(...)`, or a sequence.  Bodies only ever execute while the lock
is held (inside `with self.lock()` or inside `flush`), and while the lock
is held `run` always appends to the schedule, which is what `execBody`
does for `callRun`. -/

inductive Prog where
  | act : Nat → Prog
  | callRun : Prog → Prog
  | seq : Prog → Prog → Prog
deriving DecidableEq, Repr

def Prog.size : Prog → Nat
  | .act _ => 1
  | .callRun p => p.size + 1
  | .seq p q => p.size + q.size + 1

def schedSize (sch : List Prog) : Nat := (sch.map Prog.size).sum

/-- Execute a job body while the State lock is held: primitive actions are
recorded in the trace, `state.run(p)` appends `partial(p)` to the
schedule. -/
def execBody : List Prog → Prog → List Prog × List Nat
  | sch, .act n => (sch, [n])
  | sch, .callRun p => (sch ++ [p], [])
  | sch, .seq p q =>
      let r1 := execBody sch p
      let r2 := execBody r1.1 q
      (r2.1, r1.2 ++ r2.2)

/-- The `while self.schedule: self.schedule.popleft()()` loop of
State.flush: pop the oldest job, run it (with the lock held), repeat
until the schedule is empty.  Returns the final schedule and the trace. -/
def State.flush_loop (sch : List Prog) : List Prog × List Nat :=
  match sch with
  | [] => ([], [])
  | job :: rest =>
      let r := execBody rest job
      let r2 := State.flush_loop r.1
      (r2.1, r.2 ++ r2.2)
termination_by schedSize sch
decreasing_by
  have key : ∀ (p : Prog) (s : List Prog),
      schedSize (execBody s p).1 + 1 ≤ schedSize s + p.size := by
    intro p
    induction p with
    | act _ => intro s; simp [execBody, Prog.size]
    | callRun p _ => intro s; simp [execBody, Prog.size, schedSize]; omega
    | seq p q ihp ihq =>
        intro s
        have h1 := ihp s
        have h2 := ihq (execBody s p).1
        simp only [execBody, Prog.size]
        omega
  have h := key job rest
  simp only [schedSize, List.map_cons, List.sum_cons] at *
  omega

structure RunSt where
  locked : Bool
  schedule : List Prog
deriving DecidableEq, Repr

/-- State.run: if locked, defer `partial(method, args)`; otherwise run the
body inside `with self.lock():` and, on releasing the lock, flush the
schedule.  The returned trace lists the primitive actions in the order
they executed. -/
def State.run (s : RunSt) (p : Prog) : RunSt × List Nat :=
  if s.locked then
    ({ s with schedule := s.schedule ++ [p] }, [])
  else
    let r := execBody s.schedule p
    let fl := State.flush_loop r.1
    (⟨false, fl.1⟩, r.2 ++ fl.2)

/-! ## The jid class (xmpp/xml.py lines 226-308)

`jid.PARSE = re.compile('([^@/]+)(?:@([^/]+))?(?:/(.+))?$')` and
`jid._parse` is applied with `re.match` (anchored at the start).  The
function `pyMatch` below is the deterministic evaluation of this regex
under the leftmost-greedy backtracking semantics of `re`:

  * `([^@/]+)` takes the maximal nonempty prefix without at-sign and
    slash.  Shortening it never helps: the following character would
    then be neither at-sign nor slash, so neither optional group can
    start there, and the dollar cannot match either (a character that
    is not consumed follows; were it a lone trailing newline, the
    greedy group would already have consumed it since newline is not
    excluded from the class).
  * `(?:@([^/]+))?` matches only if an at-sign with a nonempty `[^/]`
    run follows; the run is maximal.  Shortening it never helps for
    the same reason (every character of the run satisfies `[^/]`, so a
    shorter run is followed by a non-slash character where nothing can
    match), and skipping the group while an at-sign follows leaves an
    at-sign that nothing can consume.
  * `(?:/(.+))?` matches when a slash follows and the rest is a
    nonempty dot-run: `.` excludes newline, and the final `$` (without
    MULTILINE) matches at the very end or just before a final
    newline.  So the group matches exactly when the text after the
    slash is `u` or `u ++ "\n"` with `u` nonempty and newline-free.
    When the group cannot match, the match fails: `$` cannot match at
    a position followed by a slash.
-/

def nameChar (c : Char) : Bool := c != '@' && c != '/'

def hostChar (c : Char) : Bool := c != '/'

def dotChar (c : Char) : Bool := c != '\n'

/-- Does `$` (no MULTILINE) match at the start of this remainder: at the
end of the string or just before a final newline. -/
def endOk : List Char → Bool
  | [] => true
  | [c] => c = '\n'
  | _ => false

/-- The optional `(?:@([^/]+))?` group: when an at-sign with a nonempty
`[^/]` run follows, consume it greedily; otherwise leave the remainder
untouched. -/
def hostSplit (r1 : List Char) : Option (List Char) × List Char :=
  match r1 with
  | '@' :: t =>
      if (t.takeWhile hostChar).isEmpty then (none, r1)
      else (some (t.takeWhile hostChar), t.dropWhile hostChar)
  | _ => (none, r1)

/-- The trailing `(?:/(.+))?$` of the pattern applied to the remainder:
`some ro` when the regex matches with optional group 3 `ro`, `none` when
it fails. -/
def resSplit (r2 : List Char) : Option (Option (List Char)) :=
  match r2 with
  | '/' :: t =>
      if t.takeWhile dotChar ≠ [] ∧
          (t = t.takeWhile dotChar ∨ t = t.takeWhile dotChar ++ ['\n'])
      then some (some (t.takeWhile dotChar)) else none
  | other => if endOk other then some none else none

/-- Evaluation of `jid.PARSE.match(s)`: the three groups, or `none` when
the regex does not match. -/
def pyMatch (cs : List Char) :
    Option (List Char × Option (List Char) × Option (List Char)) :=
  if (cs.takeWhile nameChar).isEmpty then none
  else
    match resSplit (hostSplit (cs.dropWhile nameChar)).2 with
    | some ro =>
        some (cs.takeWhile nameChar, (hostSplit (cs.dropWhile nameChar)).1, ro)
    | none => none

/-- The jid triple (name, host, resource).  Python stores `None` and
`False` and the empty string in these fields; all of them are falsy
everywhere the fields are used, so `None`/`False` collapse to `none`
while the empty string stays as `some []` and is handled by `truthy`. -/
structure PJid where
  name : List Char
  host : Option (List Char)
  resource : Option (List Char)
deriving DecidableEq, Repr

def truthy : Option (List Char) → Bool
  | some s => !s.isEmpty
  | none => false

/-- The `_make_unicode` method.  With a truthy host it renders
`name@host[/resource]`; without one the source evaluates `u'%s/%s' %
(self.name, resource)` where `resource` is an unbound local, raising
NameError — modelled as `none`. -/
def canonical (j : PJid) : Option (List Char) :=
  if truthy j.host && truthy j.resource then
    some (j.name ++ '@' :: j.host.getD [] ++ '/' :: j.resource.getD [])
  else if truthy j.host then
    some (j.name ++ '@' :: j.host.getD [])
  else
    none

/-- A value passed for the `host=` / `resource=` keyword of `jid(...)`:
`None` (the default), `False` (used by `resource=False`), or a string. -/
inductive PyVal where
  | pnone : PyVal
  | pfalse : PyVal
  | pstr : List Char → PyVal
deriving DecidableEq, Repr

/-- `probe.group(i) if arg is None else arg` in `jid._parse`: `None`
keeps the regex group, any other argument replaces it (`False` is stored
and is falsy, hence `none`). -/
def overrideVal (v : PyVal) (g : Option (List Char)) : Option (List Char) :=
  match v with
  | .pnone => g
  | .pfalse => none
  | .pstr s => some s

/-- The truthiness-based `arg or obj.field` used when copying a jid:
a nonempty string wins, `None`, `False` and the empty string fall back
to the field of the copied jid. -/
def orElsePy (v : PyVal) (old : Option (List Char)) : Option (List Char) :=
  match v with
  | .pstr s => if s.isEmpty then old else some s
  | _ => old

/-- `jid.__init__` when `obj` is itself a jid: copy the name and use
`host or obj.host`, `resource or obj.resource`.  Note that
`resource=False` therefore keeps the resource of the copied jid. -/
def jid_of_jid (obj : PJid) (host resource : PyVal) : PJid :=
  ⟨obj.name, orElsePy host obj.host, orElsePy resource obj.resource⟩

inductive JErr where
  | streamError : JErr
  | nameError : JErr
deriving DecidableEq, Repr

/-- `jid.__init__` when `obj` is a string: run `_parse` (StreamError
`internal-server-error` when the regex rejects) and `_make_unicode`
(NameError when the host is falsy). -/
def jid_of_str (cs : List Char) (host resource : PyVal) : Except JErr PJid :=
  match pyMatch cs with
  | none => .error .streamError
  | some (n, h, r) =>
      let j : PJid := ⟨n, overrideVal host h, overrideVal resource r⟩
      match canonical j with
      | none => .error .nameError
      | some _ => .ok j

/-- Construction `jid(s)` from a plain string with no overrides. -/
def jidParse (cs : List Char) : Except JErr PJid := jid_of_str cs .pnone .pnone

/-- The canonical unicode form `str(j)` of a constructed jid (hashing and
equality of jids compare exactly this string). -/
def jidStr (j : PJid) : List Char := (canonical j).getD []

/-! ## md5 (RFC 1321), used by Resources.bind via `hashlib.md5(data).hexdigest()`

Messages are lists of bytes (Nat below 256); 32-bit words are Nat taken
modulo 2 ^ 32.  `md5K` is the standard table `floor(2^32 * abs(sin(i+1)))`
and `md5S` the per-round rotation amounts. -/

def w32 (n : Nat) : Nat := n % 4294967296

def notW (x : Nat) : Nat := Nat.xor x 4294967295

def rotl (x s : Nat) : Nat := Nat.lor (w32 (x <<< s)) (x >>> (32 - s))

def md5K : List Nat := [
  3614090360, 3905402710, 606105819, 3250441966,
  4118548399, 1200080426, 2821735955, 4249261313,
  1770035416, 2336552879, 4294925233, 2304563134,
  1804603682, 4254626195, 2792965006, 1236535329,
  4129170786, 3225465664, 643717713, 3921069994,
  3593408605, 38016083, 3634488961, 3889429448,
  568446438, 3275163606, 4107603335, 1163531501,
  2850285829, 4243563512, 1735328473, 2368359562,
  4294588738, 2272392833, 1839030562, 4259657740,
  2763975236, 1272893353, 4139469664, 3200236656,
  681279174, 3936430074, 3572445317, 76029189,
  3654602809, 3873151461, 530742520, 3299628645,
  4096336452, 1126891415, 2878612391, 4237533241,
  1700485571, 2399980690, 4293915773, 2240044497,
  1873313359, 4264355552, 2734768916, 1309151649,
  4149444226, 3174756917, 718787259, 3951481745]

def md5S : List Nat := [
  7, 12, 17, 22, 7, 12, 17, 22, 7, 12, 17, 22, 7, 12, 17, 22,
  5, 9, 14, 20, 5, 9, 14, 20, 5, 9, 14, 20, 5, 9, 14, 20,
  4, 11, 16, 23, 4, 11, 16, 23, 4, 11, 16, 23, 4, 11, 16, 23,
  6, 10, 15, 21, 6, 10, 15, 21, 6, 10, 15, 21, 6, 10, 15, 21]

structure MD5St where
  a : Nat
  b : Nat
  c : Nat
  d : Nat
deriving DecidableEq, Repr

/-- One of the 64 operations of an md5 block. -/
def md5round (M : List Nat) (st : MD5St) (i : Nat) : MD5St :=
  let fg : Nat × Nat :=
    if i < 16 then
      (Nat.lor (Nat.land st.b st.c) (Nat.land (notW st.b) st.d), i)
    else if i < 32 then
      (Nat.lor (Nat.land st.d st.b) (Nat.land (notW st.d) st.c),
       (5 * i + 1) % 16)
    else if i < 48 then
      (Nat.xor (Nat.xor st.b st.c) st.d, (3 * i + 5) % 16)
    else
      (Nat.xor st.c (Nat.lor st.b (notW st.d)), (7 * i) % 16)
  let f := w32 (fg.1 + st.a + md5K.getD i 0 + M.getD fg.2 0)
  ⟨st.d, w32 (st.b + rotl f (md5S.getD i 0)), st.b, st.c⟩

/-- Little-endian decoding of a byte list into 32-bit words. -/
def wordsLE : List Nat → List Nat
  | b0 :: b1 :: b2 :: b3 :: rest =>
      (b0 + 256 * b1 + 65536 * b2 + 16777216 * b3) :: wordsLE rest
  | _ => []

/-- Little-endian encoding of one 32-bit word into four bytes. -/
def wordBytes (w : Nat) : List Nat :=
  [Nat.land w 255, Nat.land (w >>> 8) 255,
   Nat.land (w >>> 16) 255, Nat.land (w >>> 24) 255]

/-- md5 padding: a 0x80 byte, zeros up to 56 mod 64, then the bit length
as a little-endian 64-bit number. -/
def md5pad (msg : List Nat) : List Nat :=
  let L := msg.length
  let z := (119 - L % 64) % 64
  msg ++ 128 :: List.replicate z 0
      ++ ((List.range 8).map fun i => Nat.land (((8 * L) % 18446744073709551616) >>> (8 * i)) 255)

/-- Split into 64-byte blocks.  The padded message is nonempty and each
step removes 64 bytes, so `fuel = bs.length` is always enough. -/
def blocks64 (fuel : Nat) (bs : List Nat) : List (List Nat) :=
  match fuel, bs with
  | 0, _ => []
  | _, [] => []
  | f + 1, bs => bs.take 64 :: blocks64 f (bs.drop 64)

/-- Process one 64-byte block. -/
def md5block (st : MD5St) (blk : List Nat) : MD5St :=
  let M := wordsLE blk
  let r := (List.range 64).foldl (md5round M) st
  ⟨w32 (st.a + r.a), w32 (st.b + r.b), w32 (st.c + r.c), w32 (st.d + r.d)⟩

/-- The 16 digest bytes of a message. -/
def md5bytes (msg : List Nat) : List Nat :=
  let padded := md5pad msg
  let st := (blocks64 padded.length padded).foldl md5block
      ⟨1732584193, 4023233417, 2562383102, 271733878⟩
  wordBytes st.a ++ wordBytes st.b ++ wordBytes st.c ++ wordBytes st.d

def hexDigit (n : Nat) : Char := "0123456789abcdef".toList.getD (n % 16) '0'

def byteHex (b : Nat) : List Char := [hexDigit (b >>> 4), hexDigit b]

/-- `hashlib.md5(s).hexdigest()` for an ASCII string (Python 2 strings
are byte strings; `Char.toNat` is the byte value on ASCII input). -/
def md5hex (s : List Char) : List Char :=
  (md5bytes (s.map Char.toNat)).flatMap byteHex

/-! ## Resources (xmpp/state.py lines 190-270)

`Resources._bound` maps full jids to `weakref.KeyedRef(core, remove,
jid)` values and `Resources._routes` is a `ddict(set)` from bare jids to
sets of full jids.  Dictionary keys and set elements hash and compare by
the canonical unicode string (`jid.__hash__` / `jid.__eq__`), so both
tables are keyed by canonical strings here.  Each weak reference keeps
the *object* that was passed as its key: a jid instance on the server
path (`Resources.bind` builds one) or whatever the caller handed to
`Resources.bound`.  Sessions (cores) are numbered; CPython refcounting
runs the `remove` callback as soon as a session dies, so expiry is
modelled as the `Resources.unbind(wr.key)` call it performs. -/

inductive JKey where
  | jobj : PJid → JKey
  | jstr : List Char → JKey
deriving DecidableEq, Repr

/-- The canonical string by which a key object hashes and compares. -/
def JKey.canon : JKey → List Char
  | .jobj j => jidStr j
  | .jstr s => s

structure WeakRef where
  key : JKey
  core : Nat
deriving DecidableEq, Repr

structure RState where
  bound : List (List Char × WeakRef)
  routes : List (List Char × List (List Char))
deriving DecidableEq, Repr

/-- `self._routes[bare].add(jid)` on the `ddict(set)`: create the set if
absent, then add the element if not already present. -/
def addRoute (routes : List (List Char × List (List Char)))
    (bare j : List Char) : List (List Char × List (List Char)) :=
  match lookupA routes bare with
  | none => setA routes bare [j]
  | some js => if j ∈ js then routes else setA routes bare (js ++ [j])

inductive IQErr where
  | conflict : IQErr
deriving DecidableEq, Repr

/-- `Resources._bind(core, bare, jid)`:

```
wr = weakref.KeyedRef(core, self._remove, jid)
if self._bound.setdefault(jid, wr)() is not core:
    raise i.IQError('cancel', 'conflict')
self._routes[bare].add(jid)
return jid
```

`setdefault` inserts `wr` only when the key is absent (in which case the
ref dereferences to `core` and no error is raised); when the key is
present the existing reference is kept and compared.  The state is
returned alongside the outcome so that mutations performed before an
exception would be visible; on the conflict path nothing has been
mutated yet.  Expired references are removed by the `remove` callback as
soon as their session dies, so every entry in `bound` dereferences to a
live session. -/
def Resources.bindRaw (s : RState) (core : Nat) (bare : List Char)
    (jid : JKey) : RState × Except IQErr JKey :=
  let wr : WeakRef := ⟨jid, core⟩
  match lookupA s.bound jid.canon with
  | some wr0 =>
      if wr0.core ≠ core then (s, .error .conflict)
      else ({ s with routes := addRoute s.routes bare jid.canon }, .ok jid)
  | none =>
      ({ bound := setA s.bound jid.canon wr,
         routes := addRoute s.routes bare jid.canon }, .ok jid)

/-- The string `'%s-%d' % (name or 'Resource', random.getrandbits(32))`
hashed by `Resources.bind`; the random bits are a parameter. -/
def resourceString (name : Option (List Char)) (rnd : Nat) : List Char :=
  (match name with
   | some s => if s.isEmpty then "Resource".toList else s
   | none => "Resource".toList) ++ '-' :: (Nat.repr rnd).toList

/-- The jid built by `Resources.bind`:
`xml.jid(core.authJID, resource=md5(resource))` where `core.authJID` is
a (bare) jid instance. -/
def Resources.bindJid (authJID : PJid) (name : Option (List Char))
    (rnd : Nat) : PJid :=
  jid_of_jid authJID .pnone (.pstr (md5hex (resourceString name rnd)))

/-- `Resources.bind(name, core)`: build the fresh full jid and register
it via `_bind(core, core.authJID, jid)`; the bare key is the authJID
instance and the weak reference key is the fresh jid instance. -/
def Resources.bind (s : RState) (core : Nat) (authJID : PJid)
    (name : Option (List Char)) (rnd : Nat) : RState × Except IQErr JKey :=
  Resources.bindRaw s core (jidStr authJID)
    (.jobj (Resources.bindJid authJID name rnd))

/-- `Resources.bound(jid, core)` with a string argument:
`_bind(core, xml.jid(jid, resource=False), jid)`; parsing the bare jid
can itself raise (regex mismatch, or NameError for a hostless string). -/
def Resources.bound (s : RState) (core : Nat) (jid : List Char) :
    RState × Except JErr (Except IQErr JKey) :=
  match jid_of_str jid .pnone .pfalse with
  | .error e => (s, .error e)
  | .ok bare =>
      let r := Resources.bindRaw s core (jidStr bare) (.jstr jid)
      (r.1, .ok r.2)

/-- `Resources.unbind(jid)`:

```
del self._bound[jid]
bare = xml.jid(jid, resource=False)
routes = self._routes.get(bare)
if routes:
   if len(routes) > 1:
       routes.remove(jid)
   else:
       del self._routes[bare]
```

`none` models the exceptions that can escape: KeyError when the jid is
not bound, and the errors of `xml.jid` for unparseable string keys.
Note that for a jid *instance* key `xml.jid(jid, resource=False)` keeps
the resource of the instance (`False or obj.resource`), so `bare` is the
full canonical string on that path.  (`routes.remove` would raise
KeyError on a missing element; membership is checked by
`List.erase`, which leaves the set unchanged in that unreachable case.) -/
def Resources.unbind (s : RState) (key : JKey) : Option RState :=
  match lookupA s.bound key.canon with
  | none => none
  | some _ =>
      let bound1 := eraseA s.bound key.canon
      let bareK : Option (List Char) :=
        match key with
        | .jobj j => canonical (jid_of_jid j .pnone .pfalse)
        | .jstr str =>
            match jid_of_str str .pnone .pfalse with
            | .ok j => canonical j
            | .error _ => none
      match bareK with
      | none => none
      | some bare =>
          match lookupA s.routes bare with
          | none => some ⟨bound1, s.routes⟩
          | some js =>
              if js.length > 1 then
                some ⟨bound1, setA s.routes bare (js.erase key.canon)⟩
              else
                some ⟨bound1, eraseA s.routes bare⟩

/-! ## Stanza dispatch (xmpp/state.py lines 92-124, xmpp/core.py lines 247-293)

Stanza selectors are strings; handlers are callbacks (numbered), either
plain or wrapped in `Once` by `one_stanza`.  `trigger_stanza` looks the
selector up, deletes a `Once` entry before running it, and raises
`StreamError('unsupported-stanza-type')` for an unknown selector. -/

inductive Handler where
  | plain : Nat → Handler
  | onceH : Nat → Handler
deriving DecidableEq, Repr

inductive StreamErr where
  | unsupportedStanzaType : StreamErr
deriving DecidableEq, Repr

/-- `State.trigger_stanza`: the updated stanza table and the callback
handed to `State.run`, or the StreamError.  (The table is only mutated
when a handler is found, so on the error path it is unchanged.) -/
def trigger_stanza (stanzas : List (List Char × Handler)) (name : List Char) :
    Except StreamErr (List (List Char × Handler) × Nat) :=
  match lookupA stanzas name with
  | none => .error .unsupportedStanzaType
  | some (.plain cb) => .ok (stanzas, cb)
  | some (.onceH cb) => .ok (eraseA stanzas name, cb)

/-- `State.bind_stanza(name, callback, replace)`: raise ValueError when
the selector is taken and `replace` is false. -/
def bind_stanza (stanzas : List (List Char × Handler)) (name : List Char)
    (h : Handler) (replace : Bool) :
    Except Unit (List (List Char × Handler)) :=
  match lookupA stanzas name, replace with
  | some _, false => .error ()
  | _, _ => .ok (setA stanzas name h)

/-- Python `repr` of the optional id attribute as interpolated by
`'{jabber:client}iq[id=%r]' % ident`: `None` prints as `None`, a plain
string is wrapped in single quotes (character 39). -/
def pyRepr : Option (List Char) → List Char
  | none => "None".toList
  | some s => Char.ofNat 39 :: s ++ [Char.ofNat 39]

/-- `Core.iq_ident` applied to an id value. -/
def iq_ident (ident : Option (List Char)) : List Char :=
  "{jabber:client}iq[id=".toList ++ pyRepr ident ++ "]".toList

/-- `Core.iq_bind(callback)`: register the callback as a one-shot
handler for the nonce selector with `replace=False`. -/
def iq_bind (stanzas : List (List Char × Handler)) (nonce : List Char)
    (cb : Nat) : Except Unit (List (List Char × Handler)) :=
  bind_stanza stanzas (iq_ident (some nonce)) (.onceH cb) false

/-- An lxml element as far as the dispatch code inspects it: Clark tag,
attributes, children. -/
structure Element where
  tag : List Char
  attrs : List (List Char × List Char)
  children : List Element

def Element.get (e : Element) (k : List Char) : Option (List Char) :=
  lookupA e.attrs k

/-- The observable outcome of `Core.info_query(elem)`
(xmpp/core.py lines 247-272). -/
inductive IQOutcome where
  | notAuthorized : IQOutcome
  | droppedError : IQOutcome
  | notAcceptable : IQOutcome
  | dispatched : Nat → IQOutcome
  | featureNotImplemented : IQOutcome
deriving DecidableEq, Repr

/-- `Core.info_query`:

```
if not self.authJID:
    return self.error('not-authorized')
kind = elem.get('type')
if kind == 'error':
    log.exception('Unhandled stanza error %r.', xml.tostring(elem))
    return
if kind == 'result':
    name = self.iq_ident(elem)
else:
    child = xml.child(elem)
    if child is None:
        ... return self.stanza_error(elem, 'modify', 'not-acceptable', ...)
    name = '{jabber:client}iq/%s' % child.tag
try:
    self.state.trigger_stanza(name, elem)
except i.StreamError:
    self.stanza_error(elem, 'cancel', 'feature-not-implemented')
```

The authJID argument is the canonical string of the authenticated jid,
or `none` before authentication. -/
def info_query (authJID : Option (List Char)) (elem : Element)
    (stanzas : List (List Char × Handler)) :
    IQOutcome × List (List Char × Handler) :=
  match authJID with
  | none => (.notAuthorized, stanzas)
  | some _ =>
      let kind := elem.get "type".toList
      if kind = some "error".toList then (.droppedError, stanzas)
      else
        let name : Except Unit (List Char) :=
          if kind = some "result".toList then
            .ok (iq_ident (elem.get "id".toList))
          else
            match elem.children.head? with
            | none => .error ()
            | some c => .ok ("{jabber:client}iq/".toList ++ c.tag)
        match name with
        | .error _ => (.notAcceptable, stanzas)
        | .ok n =>
            match trigger_stanza stanzas n with
            | .ok (st2, cb) => (.dispatched cb, st2)
            | .error _ => (.featureNotImplemented, stanzas)

/-- The observable outcome of `ServerCore.handle_stanza`
(xmpp/core.py lines 704-710). -/
inductive HSOutcome where
  | assertionFailed : HSOutcome
  | unsupported : HSOutcome
  | handled : Nat → HSOutcome
deriving DecidableEq, Repr

/-- `ServerCore.handle_stanza`:

```
if self.authJID:
    fromJID = elem.get('from')
    assert fromJID is None or fromJID == self.authJID
    if fromJID is None:
        elem.set('from', self.authJID)
self.state.trigger_stanza(elem.tag, elem)
```

String-to-jid comparison goes through `jid.__eq__`, which compares the
canonical unicode form; `authJID` is again that canonical string.  The
assert raises before `trigger_stanza`, so on that path no handler runs
and the stanza table is untouched. -/
def ServerCore.handle_stanza (authJID : Option (List Char)) (elem : Element)
    (stanzas : List (List Char × Handler)) :
    HSOutcome × List (List Char × Handler) :=
  let dispatch : Element → HSOutcome × List (List Char × Handler) :=
    fun e =>
      match trigger_stanza stanzas e.tag with
      | .ok (st2, cb) => (.handled cb, st2)
      | .error _ => (.unsupported, stanzas)
  match authJID with
  | some a =>
      match elem.get "from".toList with
      | some f =>
          if f = a then dispatch elem
          else (.assertionFailed, stanzas)
      | none => dispatch { elem with attrs := setA elem.attrs "from".toList a }
  | none => dispatch elem

/-! ## Default plugin activation (xmpp/plugin.py lines 293-386)

A compiled plugin carries its slot key (`plugin_name`), its flat stanza
records `(selector, activation-event-or-None, method)` from
`plugin_stanzas`, and its `EVENTS` table `(event, [method, ...])`.
`CompiledPlugins.activate` runs `activate_group(state, self.default)`
which, under one `state.lock()` (irrelevant to these three tables),
performs `activate_one` for each default plugin:

```
instance = make(state, *args, **kwargs)
state.set(name, instance)
for (name, event, method) in stanzas[type(instance)]:
    method = getattr(instance, method)
    if not event:
        state.bind_stanza(name, method)       # replace=True
    else:
        state.bind(event, thunk(state.bind_stanza, name, method))
for (event, listeners) in instance.EVENTS.iteritems():
    for method in listeners:
        state.bind(event, getattr(instance, method))
```

Fresh instances are numbered by a counter; a bound method is the pair
(instance, method name).  `state.bind` appends to the listener list of
the event; `state.bind_stanza` replaces. -/

structure PluginDecl where
  pname : String
  stanzas : List (String × Option Nat × String)
  events : List (Nat × List String)
deriving DecidableEq, Repr

/-- A listener recorded in the event map by activation: a bound method,
or the `thunk(state.bind_stanza, sel, method)` installer used for stanza
records that wait for an activation event. -/
inductive AListener where
  | method : Nat → String → AListener
  | installer : String → Nat → String → AListener
deriving DecidableEq, Repr

structure AppState where
  events : List (Nat × List AListener)
  stanzas : List (String × AListener)
  slots : List (String × Nat)
  fresh : Nat
deriving DecidableEq, Repr

/-- `state.bind(event, listener)` on the `ddict(list)` event map:
append to the (possibly fresh) listener list. -/
def addListener (evs : List (Nat × List AListener)) (e : Nat)
    (l : AListener) : List (Nat × List AListener) :=
  match lookupA evs e with
  | none => setA evs e [l]
  | some ls => setA evs e (ls ++ [l])

/-- Install the stanza records of one plugin instance. -/
def bindStanzasOf (inst : Nat) (decls : List (String × Option Nat × String))
    (st : AppState) : AppState :=
  decls.foldl
    (fun st d =>
      match d with
      | (sel, none, m) => { st with stanzas := setA st.stanzas sel (.method inst m) }
      | (sel, some e, m) =>
          { st with events := addListener st.events e (.installer sel inst m) })
    st

/-- Install the event listeners of one plugin instance. -/
def bindEventsOf (inst : Nat) (decls : List (Nat × List String))
    (st : AppState) : AppState :=
  decls.foldl
    (fun st d =>
      d.2.foldl
        (fun st m => { st with events := addListener st.events d.1 (.method inst m) })
        st)
    st

/-- `CompiledPlugins.activate_one`: make a fresh instance, store it in
the slot, then install its stanza records and event listeners. -/
def activate_one (st : AppState) (p : PluginDecl) : AppState :=
  let inst := st.fresh
  let st1 : AppState :=
    { st with fresh := st.fresh + 1, slots := setA st.slots p.pname inst }
  bindEventsOf inst p.events (bindStanzasOf inst p.stanzas st1)

/-- `CompiledPlugins.activate` / `State.activate`: activate every
default plugin in declaration order. -/
def activate_default (ps : List PluginDecl) (st : AppState) : AppState :=
  ps.foldl activate_one st

def emptyApp : AppState := ⟨[], [], [], 0⟩

/-- The shape of a listener with the instance identity erased: which
selector it would install (for installers) and the method name. -/
def lshape : AListener → Option String × String
  | .method _ m => (none, m)
  | .installer sel _ m => (some sel, m)

def eventsAt (st : AppState) (e : Nat) : List AListener :=
  (lookupA st.events e).getD []

/-! ## Specification-side definitions

These definitions state the properties being checked; they come from the
wording of the specification, not from the source. -/

/-- The bare jid of a canonical jid string, computed the way the code
computes it for strings: `xml.jid(j, resource=False)`. -/
def bareStr (j : List Char) : Option (List Char) :=
  match jid_of_str j .pnone .pfalse with
  | .ok bj => canonical bj
  | .error _ => none

/-- The Resources table invariant asserted by the specification: for
every bare jid `b`, `routes[b]` holds exactly the full jids `j` with an
entry in `bound` (all entries are live, see `Resources.bindRaw`) whose
bare jid is `b`. -/
def resourcesInvariant (s : RState) : Prop :=
  ∀ b j : List Char,
    (∃ js, lookupA s.routes b = some js ∧ j ∈ js) ↔
      ((lookupA s.bound j).isSome ∧ bareStr j = some b)

/-- The stanza-map entry (shape) that the declarations of one plugin
leave at a selector: the last immediate (eventless) declaration wins,
`none` when the plugin does not bind the selector. -/
def stanzaDeclLast :
    List (String × Option Nat × String) → String → Option (Option String × String)
  | [], _ => none
  | (sel, none, m) :: rest, q =>
      match stanzaDeclLast rest q with
      | some v => some v
      | none => if sel = q then some (none, m) else none
  | (_, some _, _) :: rest, q => stanzaDeclLast rest q

/-- The stanza-map entry (shape) left at a selector by a whole plugin
list (a later plugin overrides an earlier one). -/
def psStanzaLast : List PluginDecl → String → Option (Option String × String)
  | [], _ => none
  | p :: rest, q =>
      match psStanzaLast rest q with
      | some v => some v
      | none => stanzaDeclLast p.stanzas q

/-- The listener shapes one activation of a plugin appends to an event:
first the installers of its event-guarded stanza records, then its
declared event listeners. -/
def declEventShapes (p : PluginDecl) (e : Nat) : List (Option String × String) :=
  (p.stanzas.filterMap fun d =>
    match d with
    | (sel, some e0, m) => if e0 = e then some (some sel, m) else none
    | _ => none)
  ++ p.events.flatMap
      (fun d => if d.1 = e then d.2.map (fun m => ((none : Option String), m)) else [])

/-- The listener shapes one activation of a plugin list appends. -/
def allEventShapes (ps : List PluginDecl) (e : Nat) :
    List (Option String × String) :=
  ps.flatMap (fun p => declEventShapes p e)

/-- Key insertion as performed by `setA` on the key list. -/
def addKey (ks : List String) (k : String) : List String :=
  if k ∈ ks then ks else ks ++ [k]

/-! ## Helper lemmas -/

theorem lookupA_setA {κ ν : Type} [DecidableEq κ] (m : List (κ × ν))
    (k q : κ) (v : ν) :
    lookupA (setA m k v) q = if k = q then some v else lookupA m q := by
  induction m with
  | nil => by_cases h : k = q <;> simp [setA, lookupA, h]
  | cons kv rest ih =>
      obtain ⟨k0, v0⟩ := kv
      by_cases h0 : k0 = k
      · subst h0
        by_cases h1 : k0 = q <;> simp [setA, lookupA, h1]
      · by_cases h1 : k0 = q
        · subst h1
          have hk : ¬ k = k0 := fun hh => h0 hh.symm
          simp [setA, lookupA, h0, hk]
        · simp [setA, lookupA, h0, h1, ih]

theorem keys_setA {κ ν : Type} [DecidableEq κ] (m : List (κ × ν))
    (k : κ) (v : ν) :
    (setA m k v).map Prod.fst =
      if k ∈ m.map Prod.fst then m.map Prod.fst else m.map Prod.fst ++ [k] := by
  induction m with
  | nil => simp [setA]
  | cons kv rest ih =>
      obtain ⟨k0, v0⟩ := kv
      by_cases h0 : k0 = k
      · subst h0; simp [setA]
      · have hk : ¬ k = k0 := fun hh => h0 hh.symm
        by_cases h1 : k ∈ rest.map Prod.fst <;>
          simp [setA, h0, hk, ih, h1]

theorem lookupA_not_mem {κ ν : Type} [DecidableEq κ]
    (m : List (κ × ν)) (k : κ) (h : k ∉ m.map Prod.fst) :
    lookupA m k = none := by
  induction m with
  | nil => rfl
  | cons kv rest ih =>
      obtain ⟨k0, v0⟩ := kv
      simp only [List.map_cons, List.mem_cons] at h
      push_neg at h
      have hne : ¬ k0 = k := fun he => h.1 he.symm
      simp only [lookupA, if_neg hne]
      exact ih h.2

theorem lookupA_eraseA_self {κ ν : Type} [DecidableEq κ]
    (m : List (κ × ν)) (k : κ) (hn : (m.map Prod.fst).Nodup) :
    lookupA (eraseA m k) k = none := by
  induction m with
  | nil => simp [eraseA, lookupA]
  | cons kv rest ih =>
      obtain ⟨k0, v0⟩ := kv
      simp only [List.map_cons, List.nodup_cons] at hn
      by_cases h0 : k0 = k
      · subst h0
        simp only [eraseA, if_pos rfl]
        exact lookupA_not_mem rest k0 hn.1
      · simp only [eraseA, if_neg h0, lookupA, if_neg h0]
        exact ih hn.2

theorem takeWhile_all {α : Type} {p : α → Bool} :
    ∀ {l : List α}, (∀ c ∈ l, p c = true) → l.takeWhile p = l := by
  intro l
  induction l with
  | nil => intro _; rfl
  | cons x rest ih =>
      intro h
      simp only [List.takeWhile_cons, h x (by simp)]
      simp [ih fun c hc => h c (by simp [hc])]

theorem dropWhile_all {α : Type} {p : α → Bool} :
    ∀ {l : List α}, (∀ c ∈ l, p c = true) → l.dropWhile p = [] := by
  intro l
  induction l with
  | nil => intro _; rfl
  | cons x rest ih =>
      intro h
      simp only [List.dropWhile_cons, h x (by simp)]
      simp [ih fun c hc => h c (by simp [hc])]

theorem takeWhile_stop {α : Type} {p : α → Bool} {l1 l2 : List α} {y : α}
    (h1 : ∀ c ∈ l1, p c = true) (hy : p y = false) :
    (l1 ++ y :: l2).takeWhile p = l1 := by
  induction l1 with
  | nil => simp [List.takeWhile_cons, hy]
  | cons x rest ih =>
      simp only [List.cons_append, List.takeWhile_cons, h1 x (by simp)]
      simp [ih fun c hc => h1 c (by simp [hc])]

theorem dropWhile_stop {α : Type} {p : α → Bool} {l1 l2 : List α} {y : α}
    (h1 : ∀ c ∈ l1, p c = true) (hy : p y = false) :
    (l1 ++ y :: l2).dropWhile p = y :: l2 := by
  induction l1 with
  | nil => simp [List.dropWhile_cons, hy]
  | cons x rest ih =>
      simp only [List.cons_append, List.dropWhile_cons, h1 x (by simp)]
      simp [ih fun c hc => h1 c (by simp [hc])]

theorem mem_takeWhile {α : Type} {p : α → Bool} :
    ∀ {l : List α} {c : α}, c ∈ l.takeWhile p → p c = true := by
  intro l
  induction l with
  | nil => intro c hc; simp [List.takeWhile] at hc
  | cons x rest ih =>
      intro c hc
      by_cases hx : p x = true
      · rw [List.takeWhile_cons, if_pos hx] at hc
        rcases List.mem_cons.mp hc with h | h
        · subst h; exact hx
        · exact ih h
      · rw [List.takeWhile_cons, if_neg hx] at hc
        simp at hc

theorem length_flatMap_two {α β : Type} (f : α → List β)
    (h : ∀ a, (f a).length = 2) (l : List α) :
    (l.flatMap f).length = 2 * l.length := by
  induction l with
  | nil => rfl
  | cons x rest ih =>
      simp only [List.flatMap_cons, List.length_append, h x, ih, List.length_cons]
      omega

theorem md5bytes_length (msg : List Nat) : (md5bytes msg).length = 16 := by
  simp [md5bytes, wordBytes]

theorem md5hex_length (s : List Char) : (md5hex s).length = 32 := by
  unfold md5hex
  rw [length_flatMap_two byteHex (fun b => rfl), md5bytes_length]

theorem hexDigit_mem (n : Nat) : hexDigit n ∈ "0123456789abcdef".toList := by
  unfold hexDigit
  have hlt : n % 16 < 16 := Nat.mod_lt _ (by norm_num)
  set m := n % 16 with hm
  interval_cases m <;> decide

theorem md5hex_chars (s : List Char) :
    ∀ c ∈ md5hex s, nameChar c = true ∧ hostChar c = true ∧ dotChar c = true := by
  intro c hc
  unfold md5hex at hc
  rw [List.mem_flatMap] at hc
  obtain ⟨b, _, hb⟩ := hc
  have hmem : c ∈ "0123456789abcdef".toList := by
    simp only [byteHex, List.mem_cons, List.not_mem_nil, or_false] at hb
    rcases hb with h | h <;> (subst h; exact hexDigit_mem _)
  have key : ∀ x ∈ "0123456789abcdef".toList,
      nameChar x = true ∧ hostChar x = true ∧ dotChar x = true := by decide
  exact key c hmem

theorem flush_loop_empties (sch : List Prog) : (State.flush_loop sch).1 = [] := by
  induction sch using State.flush_loop.induct with
  | case1 => simp [State.flush_loop]
  | case2 job rest r ih =>
      rw [State.flush_loop]
      simp_all

/-! ## The claims -/

/-- C2: State.trigger is claimed to invoke every listener bound to the
event in binding order and afterwards to have removed exactly the Once
wrappers.  Evaluating the embedded code on the event map
`{0: [Once(1), Once(2)]}` shows the claim failing: deleting `Once(1)` by
index inside the iteration shifts the list, so only callback 1 is run
and the wrapper `Once(2)` is neither invoked nor removed. -/
theorem trigger_skips_listener_after_once :
    State.trigger [(0, [⟨true, 1⟩, ⟨true, 2⟩])] 0
      = ([(0, [⟨true, 2⟩])], [1]) := by decide

/-- C3: State.run with the lock free runs the body synchronously under
the lock and then drains the deferred queue in FIFO order until it is
empty before releasing; with the lock held it only appends the deferred
partial application and invokes nothing (empty trace).  The last
conjunct exhibits the FIFO drain on a queue of plain jobs. -/
theorem run_lock_spec (sch : List Prog) (p : Prog) (ns : List Nat) :
    State.run ⟨true, sch⟩ p = (⟨true, sch ++ [p]⟩, []) ∧
    State.run ⟨false, sch⟩ p =
      (⟨false, []⟩,
        (execBody sch p).2 ++ (State.flush_loop (execBody sch p).1).2) ∧
    State.flush_loop (ns.map Prog.act) = ([], ns) := by
  refine ⟨rfl, ?_, ?_⟩
  · simp [State.run, flush_loop_empties]
  · induction ns with
    | nil => simp [State.flush_loop]
    | cons a rest ih =>
        rw [List.map_cons, State.flush_loop]
        simp [execBody, ih]

theorem lookupA_addRoute_self (routes : List (List Char × List (List Char)))
    (bare j : List Char) :
    ∃ js, lookupA (addRoute routes bare j) bare = some js ∧ j ∈ js := by
  unfold addRoute
  cases hl : lookupA routes bare with
  | none =>
      simp only [hl]
      refine ⟨[j], ?_, by simp⟩
      rw [lookupA_setA]; simp
  | some js =>
      simp only [hl]
      by_cases hj : j ∈ js
      · simp only [if_pos hj]
        exact ⟨js, hl, hj⟩
      · simp only [if_neg hj]
        refine ⟨js ++ [j], ?_, by simp⟩
        rw [lookupA_setA]; simp

/-- C10: on the server, an authorized session receiving a stanza whose
`from` attribute is present and differs from the canonical authJID hits
the `assert` in ServerCore.handle_stanza before `trigger_stanza`, so no
stanza handler runs and the stanza table is untouched. -/
theorem handle_stanza_asserts_on_foreign_from
    (a f : List Char) (elem : Element) (stanzas : List (List Char × Handler))
    (hfrom : elem.get "from".toList = some f) (hne : f ≠ a) :
    ServerCore.handle_stanza (some a) elem stanzas
      = (.assertionFailed, stanzas) := by
  unfold ServerCore.handle_stanza
  rw [hfrom]
  simp [hne]

/-- Witness for C10 at a concrete stanza carrying a foreign `from`. -/
theorem handle_stanza_asserts_on_foreign_from_witness :
    ServerCore.handle_stanza (some "u@h".toList)
        ⟨"{jabber:client}message".toList,
         [("from".toList, "e@h".toList)], []⟩
        [("{jabber:client}message".toList, .plain 3)]
      = (.assertionFailed, [("{jabber:client}message".toList, .plain 3)]) :=
  handle_stanza_asserts_on_foreign_from "u@h".toList "e@h".toList _ _
    (by decide) (by decide)

/-- C9: when Resources._bind raises the conflict IQError, both tables
are left exactly as they were: the `setdefault` found an existing key
(so it did not insert) and the routes update is never reached. -/
theorem bindRaw_conflict_no_mutation (s : RState) (core : Nat)
    (bare : List Char) (jid : JKey) (s2 : RState) (e : IQErr)
    (h : Resources.bindRaw s core bare jid = (s2, .error e)) : s2 = s := by
  unfold Resources.bindRaw at h
  cases hl : lookupA s.bound jid.canon with
  | none => simp only [hl] at h; simp at h
  | some wr0 =>
      simp only [hl] at h
      by_cases hc : wr0.core ≠ core
      · rw [if_pos hc] at h
        exact (Prod.mk.injEq _ _ _ _ ▸ h).1.symm
      · rw [if_neg hc] at h; simp at h

/-- Witness for C9: a conflicting rebind of `u@h/r` by session 1 while
session 2 owns it leaves the tables untouched. -/
theorem bindRaw_conflict_no_mutation_witness :
    (Resources.bindRaw
        ⟨[("u@h/r".toList, ⟨.jstr "u@h/r".toList, 2⟩)], []⟩ 1
        "u@h".toList (.jstr "u@h/r".toList)).1
      = ⟨[("u@h/r".toList, ⟨.jstr "u@h/r".toList, 2⟩)], []⟩ :=
  bindRaw_conflict_no_mutation
    ⟨[("u@h/r".toList, ⟨.jstr "u@h/r".toList, 2⟩)], []⟩ 1
    "u@h".toList (.jstr "u@h/r".toList) _ .conflict rfl

/-- C5: Resources._bind raises IQError(cancel, conflict) exactly when
the bound table already maps the full jid to a session other than the
one being bound (entries are unbound as soon as their session dies, so
every entry is live); otherwise the bound table maps the full jid to
this session by a weak reference, the full jid is added to
`routes[bare]`, and the full jid is returned. -/
theorem bindRaw_conflict_iff (s : RState) (core : Nat) (bare : List Char)
    (jid : JKey) :
    ((Resources.bindRaw s core bare jid).2 = .error .conflict ↔
      ∃ wr, lookupA s.bound jid.canon = some wr ∧ wr.core ≠ core) ∧
    (∀ s2 k, Resources.bindRaw s core bare jid = (s2, .ok k) →
      k = jid ∧
      (∃ wr, lookupA s2.bound jid.canon = some wr ∧ wr.core = core) ∧
      (∃ js, lookupA s2.routes bare = some js ∧ jid.canon ∈ js)) := by
  constructor
  · unfold Resources.bindRaw
    cases hl : lookupA s.bound jid.canon with
    | none =>
        simp only [hl]
        constructor
        · intro h; simp at h
        · rintro ⟨wr, hwr, _⟩; cases hwr
    | some wr0 =>
        simp only [hl]
        by_cases hc : wr0.core ≠ core
        · rw [if_pos hc]
          exact ⟨fun _ => ⟨wr0, rfl, hc⟩, fun _ => rfl⟩
        · rw [if_neg hc]
          constructor
          · intro h; simp at h
          · rintro ⟨wr, hwr, hco⟩
            cases hwr
            exact absurd hco hc
  · intro s2 k h
    unfold Resources.bindRaw at h
    cases hl : lookupA s.bound jid.canon with
    | none =>
        simp only [hl] at h
        obtain ⟨hs2, hk⟩ := Prod.mk.injEq _ _ _ _ ▸ h
        refine ⟨by simpa using hk.symm, ?_, ?_⟩
        · refine ⟨⟨jid, core⟩, ?_, rfl⟩
          rw [← hs2]
          simp [lookupA_setA]
        · rw [← hs2]
          exact lookupA_addRoute_self s.routes bare jid.canon
    | some wr0 =>
        simp only [hl] at h
        by_cases hc : wr0.core ≠ core
        · rw [if_pos hc] at h; simp at h
        · rw [if_neg hc] at h
          push_neg at hc
          obtain ⟨hs2, hk⟩ := Prod.mk.injEq _ _ _ _ ▸ h
          refine ⟨by simpa using hk.symm, ?_, ?_⟩
          · exact ⟨wr0, by rw [← hs2]; exact hl, hc⟩
          · rw [← hs2]
            exact lookupA_addRoute_self s.routes bare jid.canon

/-- Witness for C5: a fresh bind of `u@h/r` by session 1 on empty
tables registers the weak reference and the route and returns the jid. -/
theorem bindRaw_conflict_iff_witness :
    JKey.jstr "u@h/r".toList = JKey.jstr "u@h/r".toList ∧
    (∃ wr, lookupA (⟨[("u@h/r".toList, ⟨.jstr "u@h/r".toList, 1⟩)],
        [("u@h".toList, ["u@h/r".toList])]⟩ : RState).bound
        (JKey.jstr "u@h/r".toList).canon = some wr ∧ wr.core = 1) ∧
    (∃ js, lookupA (⟨[("u@h/r".toList, ⟨.jstr "u@h/r".toList, 1⟩)],
        [("u@h".toList, ["u@h/r".toList])]⟩ : RState).routes
        "u@h".toList = some js ∧ (JKey.jstr "u@h/r".toList).canon ∈ js) :=
  (bindRaw_conflict_iff ⟨[], []⟩ 1 "u@h".toList (.jstr "u@h/r".toList)).2
    ⟨[("u@h/r".toList, ⟨.jstr "u@h/r".toList, 1⟩)],
     [("u@h".toList, ["u@h/r".toList])]⟩
    (.jstr "u@h/r".toList) rfl

/-- C1 counterexample: an authorized stream receives an iq of type
`error` whose id selector has a registered one-shot callback (7).  The
claim predicts a dispatch to that callback; `Core.info_query` instead
logs and returns, leaving the table untouched and dispatching nothing. -/
theorem info_query_drops_error_counterexample :
    info_query (some "u@h".toList)
        ⟨"{jabber:client}iq".toList,
         [("type".toList, "error".toList), ("id".toList, "42".toList)], []⟩
        [(iq_ident (some "42".toList), .onceH 7)]
      = (.droppedError, [(iq_ident (some "42".toList), .onceH 7)]) ∧
    (info_query (some "u@h".toList)
        ⟨"{jabber:client}iq".toList,
         [("type".toList, "error".toList), ("id".toList, "42".toList)], []⟩
        [(iq_ident (some "42".toList), .onceH 7)]).1 ≠ .dispatched 7 := by
  constructor
  · rfl
  · decide

/-- C1 (amended): on an authorized stream, Core.info_query dispatches an
iq of type `result` to the one-shot callback registered under the
selector built from its id and removes the registration, so the first
matching response is dispatched exactly once and a second identical
response falls through to the unknown-selector path
(unsupported-stanza-type, reported as feature-not-implemented); an iq of
type `error` is logged and dropped without any dispatch. -/
theorem info_query_dispatches_result_once (a i : List Char) (cb : Nat)
    (stanzas : List (List Char × Handler)) (elem errElem : Element)
    (hnodup : (stanzas.map Prod.fst).Nodup)
    (hreg : lookupA stanzas (iq_ident (some i)) = some (.onceH cb))
    (htype : elem.get "type".toList = some "result".toList)
    (hid : elem.get "id".toList = some i)
    (herr : errElem.get "type".toList = some "error".toList) :
    info_query (some a) elem stanzas
      = (.dispatched cb, eraseA stanzas (iq_ident (some i))) ∧
    (info_query (some a) elem (eraseA stanzas (iq_ident (some i)))).1
      = .featureNotImplemented ∧
    info_query (some a) errElem stanzas = (.droppedError, stanzas) := by
  have hne : (some "result".toList : Option (List Char))
      ≠ some "error".toList := by decide
  refine ⟨?_, ?_, ?_⟩
  · unfold info_query
    rw [htype, if_neg hne, if_pos rfl, hid]
    simp [trigger_stanza, hreg]
  · unfold info_query
    rw [htype, if_neg hne, if_pos rfl, hid]
    simp [trigger_stanza, lookupA_eraseA_self stanzas (iq_ident (some i)) hnodup]
  · unfold info_query
    rw [herr, if_pos rfl]

/-- Witness for C1: a registered one-shot for id 1 fires once on the
first result, a replayed result is rejected, and an error-typed iq is
dropped. -/
theorem info_query_dispatches_result_once_witness :
    info_query (some "u@h".toList)
        ⟨"{jabber:client}iq".toList,
         [("type".toList, "result".toList), ("id".toList, "1".toList)], []⟩
        [(iq_ident (some "1".toList), .onceH 5)]
      = (.dispatched 5,
         eraseA [(iq_ident (some "1".toList), .onceH 5)]
           (iq_ident (some "1".toList))) ∧
    (info_query (some "u@h".toList)
        ⟨"{jabber:client}iq".toList,
         [("type".toList, "result".toList), ("id".toList, "1".toList)], []⟩
        (eraseA [(iq_ident (some "1".toList), .onceH 5)]
          (iq_ident (some "1".toList)))).1
      = .featureNotImplemented ∧
    info_query (some "u@h".toList)
        ⟨"{jabber:client}iq".toList,
         [("type".toList, "error".toList)], []⟩
        [(iq_ident (some "1".toList), .onceH 5)]
      = (.droppedError, [(iq_ident (some "1".toList), .onceH 5)]) :=
  info_query_dispatches_result_once "u@h".toList "1".toList 5
    [(iq_ident (some "1".toList), .onceH 5)]
    ⟨"{jabber:client}iq".toList,
     [("type".toList, "result".toList), ("id".toList, "1".toList)], []⟩
    ⟨"{jabber:client}iq".toList,
     [("type".toList, "error".toList)], []⟩
    (by decide) rfl rfl rfl rfl

/-- C8 counterexample: binding with requested name `x` (random bits 0)
is claimed to produce a resource of the shape `x-<suffix>`.  The code
hashes the string `x-0` with md5 first, so the resource is the 32
character hexdigest, which does not begin with `x-`. -/
theorem resources_bind_resource_not_name_dash :
    ((Resources.bindJid ⟨"u".toList, some "h".toList, none⟩
        (some "x".toList) 0).resource.getD []).take 2 ≠ "x-".toList := by
  decide

/-- C8 (amended): for a session whose authJID has a (truthy) host,
Resources.bind derives the string `<name|Resource>-<rand32>` but uses
its md5 hexdigest (32 hex characters) as the resource; the returned
full jid is the authJID with that digest as its resource, rendering as
`name@host/<digest>`. -/
theorem resources_bind_resource_md5 (n h : List Char)
    (r name : Option (List Char)) (rnd : Nat) (hh : h ≠ []) :
    (Resources.bindJid ⟨n, some h, r⟩ name rnd).resource
        = some (md5hex (resourceString name rnd)) ∧
    (md5hex (resourceString name rnd)).length = 32 ∧
    canonical (Resources.bindJid ⟨n, some h, r⟩ name rnd)
      = some (n ++ '@' :: h ++ '/' :: md5hex (resourceString name rnd)) := by
  have hlen := md5hex_length (resourceString name rnd)
  have hne : (md5hex (resourceString name rnd)).isEmpty = false := by
    cases hd : md5hex (resourceString name rnd) with
    | nil => rw [hd] at hlen; simp at hlen
    | cons x rest => simp
  have hres : (Resources.bindJid ⟨n, some h, r⟩ name rnd).resource
      = some (md5hex (resourceString name rnd)) := by
    simp [Resources.bindJid, jid_of_jid, orElsePy, hne]
  refine ⟨hres, hlen, ?_⟩
  have hjid : Resources.bindJid ⟨n, some h, r⟩ name rnd
      = ⟨n, some h, some (md5hex (resourceString name rnd))⟩ := by
    simp [Resources.bindJid, jid_of_jid, orElsePy, hne]
  rw [hjid]
  unfold canonical
  simp only [truthy]
  rw [hne]
  have hh2 : h.isEmpty = false := by
    cases h with
    | nil => exact absurd rfl hh
    | cons x rest => simp
  rw [hh2]
  simp

/-- Witness for C8 at authJID `u@h`, no requested name, random bits 0. -/
theorem resources_bind_resource_md5_witness :
    (Resources.bindJid ⟨"u".toList, some "h".toList, none⟩ none 0).resource
        = some (md5hex (resourceString none 0)) ∧
    (md5hex (resourceString none 0)).length = 32 ∧
    canonical (Resources.bindJid ⟨"u".toList, some "h".toList, none⟩ none 0)
      = some ("u".toList ++ '@' :: "h".toList ++ '/'
          :: md5hex (resourceString none 0)) :=
  resources_bind_resource_md5 "u".toList "h".toList none none 0 (by decide)

/-- C4: evaluating the embedded Resources code on the failing sequence.
Session 1 (authJID `u@h`) binds resource name `r` with random bits 0,
yielding the full jid `u@h/<md5hex of r-0>`; the session then dies and the
weak-reference callback runs `unbind` on the stored jid instance.
`unbind` removes the `bound` entry but computes the routes key as
`xml.jid(key, resource=False)`, which for a jid instance keeps the
resource (`False or obj.resource`), so the routes entry under the bare
jid survives.  The resulting state has the full jid still listed in
`routes[u@h]` with no entry in `bound`, violating the invariant of the
claim. -/
theorem resources_unbind_leaks_route :
    Resources.unbind
        ((Resources.bind ⟨[], []⟩ 1 ⟨"u".toList, some "h".toList, none⟩
            (some "r".toList) 0).1)
        (.jobj (Resources.bindJid ⟨"u".toList, some "h".toList, none⟩
            (some "r".toList) 0))
      = some ⟨[], [("u@h".toList,
          ["u@h/47e5e5631c3d3e0ad70047290a629c4c".toList])]⟩ ∧
    ¬ resourcesInvariant ⟨[], [("u@h".toList,
          ["u@h/47e5e5631c3d3e0ad70047290a629c4c".toList])]⟩ := by
  constructor
  · decide
  · intro hinv
    have h2 := (hinv "u@h".toList
        "u@h/47e5e5631c3d3e0ad70047290a629c4c".toList).mp
      ⟨["u@h/47e5e5631c3d3e0ad70047290a629c4c".toList], by decide, by decide⟩
    exact absurd h2.1 (by decide)

theorem hostSplit_host_facts {r1 h0 : List Char} {r2 : List Char}
    (h : hostSplit r1 = (some h0, r2)) :
    h0 ≠ [] ∧ ∀ c ∈ h0, hostChar c = true := by
  unfold hostSplit at h
  split at h
  · rename_i t
    split at h
    · simp at h
    · rename_i he
      simp only [Prod.mk.injEq, Option.some.injEq] at h
      obtain ⟨h1, _⟩ := h
      subst h1
      refine ⟨?_, fun c hc => mem_takeWhile hc⟩
      intro hemp
      rw [hemp] at he
      simp at he
  · simp at h

theorem resSplit_res_facts {r2 r0 : List Char}
    (h : resSplit r2 = some (some r0)) :
    r0 ≠ [] ∧ ∀ c ∈ r0, dotChar c = true := by
  unfold resSplit at h
  split at h
  · rename_i t
    split at h
    · rename_i hcond
      simp only [Option.some.injEq] at h
      subst h
      exact ⟨hcond.1, fun c hc => mem_takeWhile hc⟩
    · simp at h
  · split at h <;> simp at h

theorem resSplit_slash {r0 : List Char} (hne : r0 ≠ [])
    (hall : ∀ c ∈ r0, dotChar c = true) :
    resSplit ('/' :: r0) = some (some r0) := by
  simp only [resSplit]
  rw [takeWhile_all hall]
  rw [if_pos ⟨hne, Or.inl rfl⟩]

theorem pyMatch_facts {cs n : List Char} {ho ro : Option (List Char)}
    (h : pyMatch cs = some (n, ho, ro)) :
    (n ≠ [] ∧ ∀ c ∈ n, nameChar c = true) ∧
    (∀ h0, ho = some h0 → h0 ≠ [] ∧ ∀ c ∈ h0, hostChar c = true) ∧
    (∀ r0, ro = some r0 → r0 ≠ [] ∧ ∀ c ∈ r0, dotChar c = true) := by
  unfold pyMatch at h
  split at h
  · simp at h
  · rename_i hg
    split at h
    · rename_i ro2 hres
      simp only [Option.some.injEq, Prod.mk.injEq] at h
      obtain ⟨hn, hh, hr⟩ := h
      subst hn
      subst hh
      subst hr
      refine ⟨⟨?_, fun c hc => mem_takeWhile hc⟩, ?_, ?_⟩
      · intro hemp
        rw [hemp] at hg
        simp at hg
      · intro h0 hh0
        rcases hq : hostSplit (cs.dropWhile nameChar) with ⟨o, rr⟩
        rw [hq] at hh0
        simp only at hh0
        subst hh0
        exact hostSplit_host_facts hq
      · intro r0 hr0
        rw [hr0] at hres
        exact resSplit_res_facts hres
    · simp at h

/-- C6: re-parsing the canonical string form of any jid constructed by
parsing a string yields an equal jid (equality of jids is by the
canonical unicode form, and for parsed jids the triple itself is
recovered exactly). -/
theorem jid_roundtrip (cs : List Char) (j : PJid)
    (h : jidParse cs = .ok j) : jidParse (jidStr j) = .ok j := by
  unfold jidParse jid_of_str at h
  cases hm : pyMatch cs with
  | none => simp only [hm] at h; simp at h
  | some g =>
      obtain ⟨n, ho, ro⟩ := g
      have facts := pyMatch_facts hm
      simp only [hm, overrideVal] at h
      cases hc : canonical ⟨n, ho, ro⟩ with
      | none => simp only [hc] at h; simp at h
      | some c =>
          simp only [hc, Except.ok.injEq] at h
          subst h
          have hat : nameChar '@' = false := by decide
          have hsl : hostChar '/' = false := by decide
          cases ho with
          | none => simp [canonical, truthy] at hc
          | some h0 =>
              obtain ⟨h0ne, h0all⟩ := facts.2.1 h0 rfl
              have h0e : h0.isEmpty = false := by
                cases h0 with
                | nil => exact absurd rfl h0ne
                | cons x t => rfl
              have hnne : n.isEmpty = false := by
                cases hna : n with
                | nil => exact absurd hna facts.1.1
                | cons x t => rfl
              cases ro with
              | none =>
                  have hcv : c = n ++ '@' :: h0 := by
                    unfold canonical at hc
                    simp [truthy, h0e] at hc
                    exact hc.symm
                  have h3 : hostSplit ('@' :: h0) = (some h0, []) := by
                    simp only [hostSplit]
                    rw [takeWhile_all h0all, dropWhile_all h0all, h0e]
                    simp
                  have h4 : pyMatch (n ++ '@' :: h0)
                      = some (n, some h0, none) := by
                    unfold pyMatch
                    rw [takeWhile_stop facts.1.2 hat,
                        dropWhile_stop facts.1.2 hat, h3, hnne]
                    simp [resSplit, endOk]
                  unfold jidStr
                  rw [hc]
                  simp only [Option.getD_some]
                  unfold jidParse jid_of_str
                  rw [hcv, h4]
                  simp only [overrideVal, hcv ▸ hc]
              | some r0 =>
                  obtain ⟨r0ne, r0all⟩ := facts.2.2 r0 rfl
                  have r0e : r0.isEmpty = false := by
                    cases r0 with
                    | nil => exact absurd rfl r0ne
                    | cons x t => rfl
                  have hcv : c = n ++ '@' :: (h0 ++ '/' :: r0) := by
                    unfold canonical at hc
                    simp [truthy, h0e, r0e] at hc
                    rw [← hc]
                  have h3 : hostSplit ('@' :: (h0 ++ '/' :: r0))
                      = (some h0, '/' :: r0) := by
                    simp only [hostSplit]
                    rw [takeWhile_stop h0all hsl, dropWhile_stop h0all hsl, h0e]
                    simp
                  have h4 : pyMatch (n ++ '@' :: (h0 ++ '/' :: r0))
                      = some (n, some h0, some r0) := by
                    unfold pyMatch
                    rw [takeWhile_stop facts.1.2 hat,
                        dropWhile_stop facts.1.2 hat, h3, hnne,
                        resSplit_slash r0ne r0all]
                    rfl
                  unfold jidStr
                  rw [hc]
                  simp only [Option.getD_some]
                  unfold jidParse jid_of_str
                  rw [hcv, h4]
                  simp only [overrideVal, hcv ▸ hc]

/-- Witness for C6 on the full jid string `a@b/c`. -/
theorem jid_roundtrip_witness :
    jidParse (jidStr ⟨"a".toList, some "b".toList, some "c".toList⟩)
      = .ok ⟨"a".toList, some "b".toList, some "c".toList⟩ :=
  jid_roundtrip "a@b/c".toList
    ⟨"a".toList, some "b".toList, some "c".toList⟩ rfl

theorem lookupA_addListener (evs : List (Nat × List AListener)) (e q : Nat)
    (l : AListener) :
    (lookupA (addListener evs e l) q).getD []
      = if e = q then (lookupA evs q).getD [] ++ [l]
        else (lookupA evs q).getD [] := by
  unfold addListener
  cases hl : lookupA evs e with
  | none =>
      simp only
      rw [lookupA_setA]
      by_cases he : e = q
      · subst he; simp [hl]
      · simp [he]
  | some ls =>
      simp only
      rw [lookupA_setA]
      by_cases he : e = q
      · subst he; simp [hl]
      · simp [he]

theorem evFold_spec (inst e : Nat) (ms : List String) :
    ∀ st : AppState,
    (ms.foldl (fun st m =>
        { st with events := addListener st.events e (.method inst m) }) st).stanzas
      = st.stanzas ∧
    (ms.foldl (fun st m =>
        { st with events := addListener st.events e (.method inst m) }) st).slots
      = st.slots ∧
    ∀ q, ((lookupA (ms.foldl (fun st m =>
        { st with events := addListener st.events e (.method inst m) }) st).events
          q).getD []).map lshape
      = ((lookupA st.events q).getD []).map lshape
        ++ (if e = q then ms.map (fun m => ((none : Option String), m)) else []) := by
  induction ms with
  | nil => intro st; refine ⟨rfl, rfl, fun q => by simp⟩
  | cons m rest ih =>
      intro st
      simp only [List.foldl_cons]
      obtain ⟨ih1, ih2, ih3⟩ :=
        ih { st with events := addListener st.events e (.method inst m) }
      refine ⟨ih1, ih2, ?_⟩
      intro q
      rw [ih3 q]
      simp only
      rw [lookupA_addListener]
      by_cases he : e = q
      · subst he; simp [lshape]
      · simp [he]

theorem bindEventsOf_spec (inst : Nat) (decls : List (Nat × List String)) :
    ∀ st : AppState,
    (bindEventsOf inst decls st).stanzas = st.stanzas ∧
    (bindEventsOf inst decls st).slots = st.slots ∧
    ∀ q, ((lookupA (bindEventsOf inst decls st).events q).getD []).map lshape
      = ((lookupA st.events q).getD []).map lshape
        ++ decls.flatMap (fun d =>
            if d.1 = q then d.2.map (fun m => ((none : Option String), m))
            else []) := by
  induction decls with
  | nil => intro st; exact ⟨rfl, rfl, fun q => by simp [bindEventsOf]⟩
  | cons d rest ih =>
      intro st
      unfold bindEventsOf
      simp only [List.foldl_cons]
      have hinner := evFold_spec inst d.1 d.2 st
      set st1 := d.2.foldl (fun st m =>
        { st with events := addListener st.events d.1 (.method inst m) }) st with hst1
      obtain ⟨ih1, ih2, ih3⟩ := ih st1
      unfold bindEventsOf at ih1 ih2 ih3
      refine ⟨by rw [ih1, hinner.1], by rw [ih2, hinner.2.1], ?_⟩
      intro q
      rw [ih3 q, hinner.2.2 q]
      simp only [List.flatMap_cons, List.append_assoc]

theorem bindStanzasOf_spec (inst : Nat)
    (decls : List (String × Option Nat × String)) :
    ∀ st : AppState,
    (bindStanzasOf inst decls st).slots = st.slots ∧
    (∀ sel, (lookupA (bindStanzasOf inst decls st).stanzas sel).map lshape
      = match stanzaDeclLast decls sel with
        | some v => some v
        | none => (lookupA st.stanzas sel).map lshape) ∧
    ∀ q, ((lookupA (bindStanzasOf inst decls st).events q).getD []).map lshape
      = ((lookupA st.events q).getD []).map lshape
        ++ decls.filterMap (fun d =>
            match d with
            | (sel, some e0, m) => if e0 = q then some (some sel, m) else none
            | _ => none) := by
  induction decls with
  | nil =>
      intro st
      exact ⟨rfl, fun sel => by simp [bindStanzasOf, stanzaDeclLast], fun q => by
        simp [bindStanzasOf]⟩
  | cons d rest ih =>
      intro st
      obtain ⟨sel0, ev0, m0⟩ := d
      cases ev0 with
      | none =>
          unfold bindStanzasOf
          simp only [List.foldl_cons]
          set st1 : AppState :=
            { st with stanzas := setA st.stanzas sel0 (.method inst m0) }
            with hst1
          obtain ⟨ih1, ih2, ih3⟩ := ih st1
          unfold bindStanzasOf at ih1 ih2 ih3
          refine ⟨ih1, ?_, ?_⟩
          · intro sel
            rw [ih2 sel]
            simp only [stanzaDeclLast]
            cases stanzaDeclLast rest sel with
            | some v => rfl
            | none =>
                simp only [hst1]
                rw [lookupA_setA]
                by_cases hs : sel0 = sel
                · subst hs; simp [lshape]
                · simp [hs]
          · intro q
            rw [ih3 q]
            simp [List.filterMap_cons]
      | some e0 =>
          unfold bindStanzasOf
          simp only [List.foldl_cons]
          set st1 : AppState :=
            { st with events := addListener st.events e0 (.installer sel0 inst m0) }
            with hst1
          obtain ⟨ih1, ih2, ih3⟩ := ih st1
          unfold bindStanzasOf at ih1 ih2 ih3
          refine ⟨ih1, ?_, ?_⟩
          · intro sel
            rw [ih2 sel]
            simp only [stanzaDeclLast]
          · intro q
            rw [ih3 q]
            simp only [hst1]
            rw [lookupA_addListener]
            by_cases he : e0 = q
            · subst he
              simp [lshape, List.filterMap_cons, List.append_assoc]
            · simp [he, List.filterMap_cons]

theorem activate_one_spec (st : AppState) (p : PluginDecl) :
    (activate_one st p).slots.map Prod.fst
      = addKey (st.slots.map Prod.fst) p.pname ∧
    (∀ sel, (lookupA (activate_one st p).stanzas sel).map lshape
      = match stanzaDeclLast p.stanzas sel with
        | some v => some v
        | none => (lookupA st.stanzas sel).map lshape) ∧
    ∀ q, (eventsAt (activate_one st p) q).map lshape
      = ((lookupA st.events q).getD []).map lshape ++ declEventShapes p q := by
  unfold activate_one
  set st1 : AppState :=
    { st with fresh := st.fresh + 1, slots := setA st.slots p.pname st.fresh }
    with hst1
  have hbs := bindStanzasOf_spec st.fresh p.stanzas st1
  have hbe := bindEventsOf_spec st.fresh p.events (bindStanzasOf st.fresh p.stanzas st1)
  refine ⟨?_, ?_, ?_⟩
  · rw [hbe.2.1, hbs.1]
    simp only [hst1]
    rw [keys_setA]
    rfl
  · intro sel
    have := hbe.1
    rw [show (bindEventsOf st.fresh p.events
        (bindStanzasOf st.fresh p.stanzas st1)).stanzas
      = (bindStanzasOf st.fresh p.stanzas st1).stanzas from hbe.1]
    exact hbs.2.1 sel
  · intro q
    unfold eventsAt
    rw [hbe.2.2 q, hbs.2.2 q]
    unfold declEventShapes
    simp [List.append_assoc]

theorem activate_default_spec (ps : List PluginDecl) :
    ∀ st : AppState,
    (activate_default ps st).slots.map Prod.fst
      = (ps.map PluginDecl.pname).foldl addKey (st.slots.map Prod.fst) ∧
    (∀ sel, (lookupA (activate_default ps st).stanzas sel).map lshape
      = match psStanzaLast ps sel with
        | some v => some v
        | none => (lookupA st.stanzas sel).map lshape) ∧
    ∀ q, (eventsAt (activate_default ps st) q).map lshape
      = ((lookupA st.events q).getD []).map lshape ++ allEventShapes ps q := by
  induction ps with
  | nil =>
      intro st
      exact ⟨rfl, fun sel => by simp [activate_default, psStanzaLast],
        fun q => by simp [activate_default, allEventShapes, eventsAt]⟩
  | cons p rest ih =>
      intro st
      unfold activate_default
      simp only [List.foldl_cons, List.map_cons]
      have h1 := activate_one_spec st p
      obtain ⟨ih1, ih2, ih3⟩ := ih (activate_one st p)
      unfold activate_default at ih1 ih2 ih3
      refine ⟨by rw [ih1, h1.1], ?_, ?_⟩
      · intro sel
        rw [ih2 sel]
        simp only [psStanzaLast]
        cases psStanzaLast rest sel with
        | some v => rfl
        | none => exact h1.2.1 sel
      · intro q
        rw [ih3 q]
        have := h1.2.2 q
        unfold eventsAt at this
        rw [this]
        simp [allEventShapes, List.append_assoc]

theorem mem_addKey_left {ks : List String} {k : String} (x : String)
    (h : k ∈ ks) : k ∈ addKey ks x := by
  unfold addKey
  by_cases hx : x ∈ ks <;> simp [hx, h]

theorem mem_foldl_addKey_left (L : List String) :
    ∀ (ks : List String) (k : String), k ∈ ks → k ∈ L.foldl addKey ks := by
  induction L with
  | nil => intro ks k h; exact h
  | cons x rest ih =>
      intro ks k h
      simp only [List.foldl_cons]
      exact ih (addKey ks x) k (mem_addKey_left x h)

theorem mem_foldl_addKey_self (L : List String) :
    ∀ (ks : List String) (k : String), k ∈ L → k ∈ L.foldl addKey ks := by
  induction L with
  | nil => intro ks k h; simp at h
  | cons x rest ih =>
      intro ks k h
      simp only [List.foldl_cons]
      rcases List.mem_cons.mp h with h | h
      · subst h
        refine mem_foldl_addKey_left rest (addKey ks k) k ?_
        unfold addKey
        by_cases hx : k ∈ ks <;> simp [hx]
      · exact ih (addKey ks x) k h

theorem foldl_addKey_noop (L : List String) :
    ∀ ks : List String, (∀ k ∈ L, k ∈ ks) → L.foldl addKey ks = ks := by
  induction L with
  | nil => intro ks _; rfl
  | cons x rest ih =>
      intro ks h
      simp only [List.foldl_cons]
      have hx : addKey ks x = ks := by
        unfold addKey
        rw [if_pos (h x (by simp))]
      rw [hx]
      exact ih ks fun k hk => h k (by simp [hk])

/-- C7 counterexample: one default plugin declaring a single event
listener.  After one activation the event holds one listener; a second
activation appends another copy (bound to the fresh instance), so the
event maps differ even with instance identity erased — triggering the
event would now fire the handler twice. -/
theorem activate_default_twice_differs :
    (eventsAt (activate_default [⟨"p", [], [(0, ["m"])]⟩]
        (activate_default [⟨"p", [], [(0, ["m"])]⟩] emptyApp)) 0).map lshape
      ≠ (eventsAt (activate_default [⟨"p", [], [(0, ["m"])]⟩] emptyApp) 0).map
          lshape := by
  decide

/-- C7 (amended): activating the default plugin set a second time on the
same State binds the same stanza selectors to handlers of the same shape
(the fresh instances replace the old), keeps the slot map keys
unchanged, but appends a second copy of every declared event listener,
so after two activations the event map holds each listener shape
twice. -/
theorem activate_default_twice (ps : List PluginDecl) :
    (∀ sel, (lookupA (activate_default ps
          (activate_default ps emptyApp)).stanzas sel).map lshape
        = (lookupA (activate_default ps emptyApp).stanzas sel).map lshape) ∧
    (activate_default ps (activate_default ps emptyApp)).slots.map Prod.fst
        = (activate_default ps emptyApp).slots.map Prod.fst ∧
    ∀ e, (eventsAt (activate_default ps
          (activate_default ps emptyApp)) e).map lshape
        = (eventsAt (activate_default ps emptyApp) e).map lshape
          ++ (eventsAt (activate_default ps emptyApp) e).map lshape := by
  have h1 := activate_default_spec ps emptyApp
  have h2 := activate_default_spec ps (activate_default ps emptyApp)
  refine ⟨?_, ?_, ?_⟩
  · intro sel
    rw [h2.2.1 sel, h1.2.1 sel]
    cases psStanzaLast ps sel with
    | some v => rfl
    | none => simp [emptyApp, lookupA]
  · rw [h2.1, h1.1]
    apply foldl_addKey_noop
    intro k hk
    exact mem_foldl_addKey_self _ _ _ hk
  · intro e
    have he : ((lookupA emptyApp.events e).getD []).map lshape = [] := by
      simp [emptyApp, lookupA]
    have hs1 : (eventsAt (activate_default ps emptyApp) e).map lshape
        = allEventShapes ps e := by
      rw [h1.2.2 e, he]; simp
    have hs1b : ((lookupA (activate_default ps emptyApp).events e).getD
        []).map lshape = allEventShapes ps e := hs1
    rw [h2.2.2 e, hs1b, hs1]
